import Mathlib

/-!
# Verification of the traxdub control core

A shallow embedding, in Lean 4, of the traxdub control core:

* the controller gesture accumulator (`src/controller/mod.rs`,
  `Controller::process_knob_value`),
* the graph / navigation model (`src/ui/mod.rs`, `UI`),
* the controller event interpreter for the navigating state
  (`src/controller/mod.rs`, `Controller::process_event_navigating_state`),
* the protocol codec's sequence-number counter (`src/engine/protocol.rs`,
  `IngenProtocol::serialize_graph`),
* the transport receive / framing loop (`src/engine/mod.rs`,
  `Engine::receive_message`).

Rust `HashMap` / `HashSet` state is modelled with association lists whose
lookup ignores positions, `u8` / `usize` values with `Nat`, `i64` counters
with `Int` (they are only incremented a bounded number of times per run, so
64-bit overflow cannot occur), and the `u32` atomic sequence counter with a
`Nat` reduced modulo `2 ^ 32` (its wrap-around is observable).  The `f32`
knob accumulator only ever holds integers of magnitude below `256 + 64`,
which `f32` represents exactly, so it is modelled with `Int`.
-/

namespace Traxdub

/-! ## Controller data model (`src/controller/mod.rs`) -/

/-- `ControlType` from `src/controller/mod.rs`. -/
inductive ControlType
  | Knob
  | Button
deriving DecidableEq

/-- `MidiAssignment` from `src/controller/mod.rs`: channel / control are 7-bit
MIDI integers (`u8` in the source), modelled as `Nat`. -/
structure MidiAssignment where
  channel : Nat
  control : Nat
  control_type : ControlType
deriving DecidableEq

/-- `BaseControlConfig` from `src/controller/mod.rs`. -/
structure BaseControlConfig where
  main_knob : MidiAssignment
  secondary_knob : MidiAssignment
  selection_button : MidiAssignment
  back_button : MidiAssignment
deriving DecidableEq

/-- `NavigationLevel` from `src/controller/mod.rs`. -/
inductive NavigationLevel
  | Main
  | Secondary
deriving DecidableEq

/-- `KnobDirection` from `src/controller/mod.rs`. -/
inductive KnobDirection
  | Backward
  | Forward
deriving DecidableEq

/-- `ControllerState` from `src/controller/mod.rs`. -/
inductive ControllerState
  | Initializing
  | LearningSelectionKnob
  | LearningSecondaryKnob
  | LearningSelectionButton
  | LearningBackButton
  | Navigating
  | BrowsingMenu
deriving DecidableEq

/-- `driver::MidiEvent` from `src/controller/driver.rs` (note events are
filtered upstream and never produce a variant). -/
inductive MidiEvent
  | ControlChange (channel control value : Nat)
  | ProgramChange (channel program : Nat)
  | PitchBend (channel : Nat) (value : Nat)
  | AfterTouch (channel pressure : Nat)
  | PolyAfterTouch (channel note pressure : Nat)
deriving DecidableEq

/-! ## The gesture accumulator (`Controller::process_knob_value`) -/

/-- The signed delta contributed by one knob value, from the first lines of
`Controller::process_knob_value`:
`if value >= 64 { (value - 64) as f32 } else { -((64 - value) as f32) }`. -/
def knobDelta (value : Nat) : Int :=
  if 64 ≤ value then ((value - 64 : Nat) : Int) else -((64 - value : Nat) : Int)

/-- `DELTA_THRESHOLD` from `Controller::process_event_navigating_state` and
`Controller::process_event_browsing_menu_state` (both use `256.0`). -/
def DELTA_THRESHOLD : Int := 256

/-- `Controller::process_knob_value` from `src/controller/mod.rs`: add the
signed delta to the accumulator; once the accumulator's absolute value
reaches the threshold, emit a direction (positive accumulator ⇒ `Backward`,
otherwise `Forward`) and reset the accumulator to `0`. -/
def process_knob_value (value : Nat) (accumulator : Int) (threshold : Int) :
    Option KnobDirection × Int :=
  let acc := accumulator + knobDelta value
  if threshold ≤ |acc| then
    (some (if 0 < acc then KnobDirection.Backward else KnobDirection.Forward), 0)
  else
    (none, acc)

/-- C1: every knob value contributes a signed delta of `value - 64`; while the
accumulator's absolute value stays below `256` no navigation event is emitted
and the accumulator keeps the running sum, and as soon as it reaches or
exceeds `256` exactly one directional event is emitted and the accumulator
is reset to `0`. -/
theorem knob_accumulator_spec :
    (∀ value : Nat, value ≤ 127 → knobDelta value = (value : Int) - 64) ∧
    (∀ (value : Nat) (acc : Int), |acc + knobDelta value| < 256 →
      process_knob_value value acc DELTA_THRESHOLD = (none, acc + knobDelta value)) ∧
    (∀ (value : Nat) (acc : Int), 256 ≤ |acc + knobDelta value| →
      ∃ d, process_knob_value value acc DELTA_THRESHOLD = (some d, 0)) := by
  refine ⟨?_, ?_, ?_⟩
  · intro value _
    unfold knobDelta
    split <;> omega
  · intro value acc h
    unfold process_knob_value DELTA_THRESHOLD
    simp only
    rw [if_neg (by omega)]
  · intro value acc h
    refine ⟨if 0 < acc + knobDelta value then .Backward else .Forward, ?_⟩
    unfold process_knob_value DELTA_THRESHOLD
    simp only
    rw [if_pos (by omega)]

/-- Witness for `knob_accumulator_spec` at concrete inputs: value `100`
(delta `36`) on accumulator `0` emits nothing and keeps the sum, while value
`100` on accumulator `220` crosses the threshold and emits one event. -/
theorem knob_accumulator_spec_witness :
    ((100 : Nat) ≤ 127 ∧ knobDelta 100 = (100 : Int) - 64) ∧
    (|(0 : Int) + knobDelta 100| < 256 ∧
      process_knob_value 100 0 DELTA_THRESHOLD = (none, 0 + knobDelta 100)) ∧
    (256 ≤ |(220 : Int) + knobDelta 100| ∧
      ∃ d, process_knob_value 100 220 DELTA_THRESHOLD = (some d, 0)) :=
  ⟨⟨by decide, knob_accumulator_spec.1 100 (by decide)⟩,
   ⟨by decide, knob_accumulator_spec.2.1 100 0 (by decide)⟩,
   ⟨by decide, knob_accumulator_spec.2.2 100 220 (by decide)⟩⟩

/-- C10: sign convention of the gesture accumulator: reaching the threshold
with a positive sum emits `Backward`, reaching it with a negative sum emits
`Forward`. -/
theorem knob_direction_sign :
    ∀ (value : Nat) (acc : Int),
      (256 ≤ acc + knobDelta value →
        process_knob_value value acc DELTA_THRESHOLD = (some KnobDirection.Backward, 0)) ∧
      (acc + knobDelta value ≤ -256 →
        process_knob_value value acc DELTA_THRESHOLD = (some KnobDirection.Forward, 0)) := by
  intro value acc
  constructor
  · intro h
    unfold process_knob_value DELTA_THRESHOLD
    simp only
    rw [if_pos (h.trans (le_abs_self _)), if_pos (by omega)]
  · intro h
    unfold process_knob_value DELTA_THRESHOLD
    simp only
    rw [if_pos (((by omega : (256 : Int) ≤ -(acc + knobDelta value))).trans (neg_le_abs _)),
      if_neg (by omega)]

/-- Witness for `knob_direction_sign`: values above center (`127`, delta
`63`) reaching `+256` emit `Backward`; values below center (`0`, delta
`-64`) reaching `-256` emit `Forward`. -/
theorem knob_direction_sign_witness :
    ((256 : Int) ≤ 193 + knobDelta 127 ∧
      process_knob_value 127 193 DELTA_THRESHOLD = (some KnobDirection.Backward, 0)) ∧
    ((-192 : Int) + knobDelta 0 ≤ -256 ∧
      process_knob_value 0 (-192) DELTA_THRESHOLD = (some KnobDirection.Forward, 0)) :=
  ⟨⟨by decide, (knob_direction_sign 127 193).1 (by decide)⟩,
   ⟨by decide, (knob_direction_sign 0 (-192)).2 (by decide)⟩⟩

/-! ## Graph / navigation model (`src/ui/mod.rs`) -/

/-- `MenuOption` from `src/ui/mod.rs`. -/
structure MenuOption where
  id : String
  name : String
deriving DecidableEq

/-- `Menu` from `src/ui/mod.rs`. -/
structure Menu where
  id : String
  name : String
  options : List MenuOption
deriving DecidableEq

/-- `LinkType` from `src/ui/mod.rs`. -/
inductive LinkType
  | Normal
  | PortIn
  | PortOut
  | Virtual
deriving DecidableEq

/-- `Element` from `src/ui/mod.rs`: the focused element. -/
inductive Element
  | Node (id : String)
  | Link (from_id to_id : String) (link_type : LinkType)
  | MenuOption (menu_id option_id : String)
deriving DecidableEq

/-- `NodeType` from `src/ui/mod.rs`. -/
inductive NodeType
  | Normal
  | PortIn
  | PortOut
  | Context
deriving DecidableEq

/-- `Node` from `src/ui/mod.rs`. -/
structure Node where
  id : String
  name : String
  node_type : NodeType
deriving DecidableEq

/-- `Link` from `src/ui/mod.rs`.  In the source, `PartialEq` and `Hash` only
consider `from_id` and `to_id`; that key role is captured by `Link.sameKey`
below, while this structure keeps all fields. -/
structure Link where
  from_id : String
  to_id : String
  visited_last : Int
  order : Int
  link_type : LinkType
deriving DecidableEq

/-- The equality used by the `HashSet<Link>` in the source: `impl PartialEq
for Link` compares `from_id` and `to_id` only. -/
def Link.sameKey (a : Link) (f t : String) : Bool :=
  a.from_id = f ∧ a.to_id = t

/-- `i64::MAX`, the pinned `order` of links between two context nodes. -/
def i64Max : Int := 9223372036854775807

/-- The mutable fields of `struct UI` from `src/ui/mod.rs`.  The source wraps
each field in a `Mutex`; all claims concern the sequential behaviour under
those locks, so the state is modelled directly.  `HashMap`s become
association lists and the `HashSet<Link>` a list that the `create_link`
guard keeps duplicate-free. -/
structure UIState where
  nodes : List Node
  links : List Link
  focused_element : Option Element
  visit_counter : Int
  order_counter : Int
  menu_stack : List Menu
  focused_menu_option : Option Nat
  menu_focus_memory : List (String × Nat)
  session_name : Option String
deriving DecidableEq

/-- `UI::new`. -/
def UI_new : UIState :=
  { nodes := [], links := [], focused_element := none, visit_counter := 0,
    order_counter := 0, menu_stack := [], focused_menu_option := none,
    menu_focus_memory := [], session_name := none }

/-- `self.nodes.get(id)` on the `HashMap<String, Node>`. -/
def lookupNode (st : UIState) (id : String) : Option Node :=
  st.nodes.find? (fun n => n.id = id)

/-- `HashMap::insert` on the node map: replace any entry with the same key. -/
def nodesInsert (nodes : List Node) (node : Node) : List Node :=
  nodes.filter (fun n => n.id ≠ node.id) ++ [node]

/-- `HashMap::insert` on the menu-focus-memory map. -/
def memoryInsert (m : List (String × Nat)) (k : String) (v : Nat) :
    List (String × Nat) :=
  m.filter (fun e => e.1 ≠ k) ++ [(k, v)]

/-- `self.menu_focus_memory.get(&id)`. -/
def memoryGet (m : List (String × Nat)) (k : String) : Option Nat :=
  (m.find? (fun e => e.1 = k)).map (fun e => e.2)

/-- `self.links.contains`-style membership by the `(from_id, to_id)` key. -/
def linkExists (links : List Link) (f t : String) : Bool :=
  links.any (fun l => l.sameKey f t)

/-- `links.iter().find(|l| l.from_id == f && l.to_id == t)`. -/
def getLink (links : List Link) (f t : String) : Option Link :=
  links.find? (fun l => l.sameKey f t)

/-- `HashSet<Link>::insert`: if an element with an equal key is present the
set is unchanged (the existing element and its metadata are retained),
otherwise the new link is added. -/
def linksInsert (links : List Link) (link : Link) : List Link :=
  if linkExists links link.from_id link.to_id then links else links ++ [link]

/-- `HashSet<Link>::remove` by key.  The set holds at most one element per
key, so removing every key-equal element is the same as removing the single
contained one. -/
def linksRemove (links : List Link) (f t : String) : List Link :=
  links.filter (fun l => ¬ l.sameKey f t)

/-- `UI::create_node`: insert the node and focus it when its kind is not
`Context`. -/
def create_node (st : UIState) (id name : String) (node_type : NodeType) :
    UIState :=
  let node : Node := { id := id, name := name, node_type := node_type }
  let should_focus := node.node_type ≠ NodeType.Context
  let st := { st with nodes := nodesInsert st.nodes node }
  if should_focus then { st with focused_element := some (Element.Node id) } else st

/-- `UI::remove_node`: remove by id; error (`false`) when absent.  The
focused element is not touched. -/
def remove_node (st : UIState) (id : String) : UIState × Bool :=
  if st.nodes.any (fun n => n.id = id) then
    ({ st with nodes := st.nodes.filter (fun n => n.id ≠ id) }, true)
  else
    (st, false)

/-- `UI::create_link`: reject when either endpoint is absent; always bump the
order counter; links between two context nodes are pinned to `i64::MAX`
order; insert into the link set (a no-op when the `(from, to)` key is
already present); focus the new link when nothing is focused yet. -/
def create_link (st : UIState) (from_id to_id : String) (link_type : LinkType) :
    UIState × Bool :=
  if (lookupNode st from_id).isNone then (st, false)
  else if (lookupNode st to_id).isNone then (st, false)
  else
    let from_is_context :=
      ((lookupNode st from_id).map (fun n => n.node_type == NodeType.Context)).getD false
    let to_is_context :=
      ((lookupNode st to_id).map (fun n => n.node_type == NodeType.Context)).getD false
    let order_counter := st.order_counter + 1
    let link_order := if from_is_context && to_is_context then i64Max else order_counter
    let link : Link :=
      { from_id := from_id, to_id := to_id, visited_last := -link_order,
        order := link_order, link_type := link_type }
    let links := linksInsert st.links link
    let focused :=
      if st.focused_element.isNone then
        some (Element.Link from_id to_id link_type)
      else st.focused_element
    ({ st with links := links, focused_element := focused,
               order_counter := order_counter }, true)

/-- `UI::remove_link`: remove by `(from, to)` key; error (`false`) when no
such link exists.  The focused element is not touched. -/
def remove_link (st : UIState) (from_id to_id : String) : UIState × Bool :=
  if linkExists st.links from_id to_id then
    ({ st with links := linksRemove st.links from_id to_id }, true)
  else
    (st, false)

/-- `UI::calculate_link_type` from `src/ui/mod.rs`. -/
def calculate_link_type (from_type to_type : Option NodeType) : LinkType :=
  match from_type, to_type with
  | some NodeType.Context, some NodeType.Context => LinkType.Virtual
  | some NodeType.Context, some NodeType.PortIn => LinkType.PortIn
  | some NodeType.PortOut, some NodeType.Context => LinkType.PortOut
  | some NodeType.Normal, some NodeType.Context => LinkType.Virtual
  | some NodeType.PortIn, some NodeType.Context => LinkType.Virtual
  | some NodeType.Context, some NodeType.Normal => LinkType.Virtual
  | some NodeType.Context, some NodeType.PortOut => LinkType.Virtual
  | _, _ => LinkType.Normal

/-- `UI::insert_node` from `src/ui/mod.rs`: create the node, compute the two
new link kinds from the adjacent node kinds, create both links, then remove
the original `link_from → link_to` edge unless it connects `"inputs"` to
`"outputs"`.  Each `?` in the source aborts the remaining steps but keeps
the mutations already made, which the explicit early returns mirror. -/
def insert_node (st : UIState) (node_id node_name : String)
    (node_type : NodeType) (link_from link_to : String) : UIState × Bool :=
  let st1 := create_node st node_id node_name node_type
  let from_node_type := (lookupNode st1 link_from).map (fun n => n.node_type)
  let to_node_type := (lookupNode st1 link_to).map (fun n => n.node_type)
  let link1_type := calculate_link_type from_node_type (some node_type)
  let link2_type := calculate_link_type (some node_type) to_node_type
  let r1 := create_link st1 link_from node_id link1_type
  if r1.2 then
    let r2 := create_link r1.1 node_id link_to link2_type
    if r2.2 then
      if ¬ (link_from = "inputs" ∧ link_to = "outputs") then
        remove_link r2.1 link_from link_to
      else (r2.1, true)
    else (r2.1, false)
  else (r1.1, false)

/-- Rust `Iterator::min_by_key` over a list: among elements with the least
key, the first is returned. -/
def min_by_key {α : Type} (key : α → Int) : List α → Option α
  | [] => none
  | x :: xs =>
    match min_by_key key xs with
    | none => some x
    | some y => if key x ≤ key y then some x else some y

/-- Rust `Iterator::max_by_key` over a list: among elements with the
greatest key, the last is returned. -/
def max_by_key {α : Type} (key : α → Int) : List α → Option α
  | [] => none
  | x :: xs =>
    match max_by_key key xs with
    | none => some x
    | some y => if key x ≤ key y then some y else some x

/-- `UI::find_sibling_link` from `src/ui/mod.rs`: Forward picks the sibling
with the smallest `order` greater than the current one, Backward the largest
`order` smaller than it. -/
def find_sibling_link (sibling_links : List Link) (current_order : Int)
    (direction : KnobDirection) : Option Link :=
  match direction with
  | KnobDirection.Forward =>
    min_by_key (fun l => l.order) (sibling_links.filter (fun l => current_order < l.order))
  | KnobDirection.Backward =>
    max_by_key (fun l => l.order) (sibling_links.filter (fun l => l.order < current_order))

/-- The menu branch at the top of `UI::navigate`: reinterpret the gesture as
moving the focused option index with wraparound, persisting the new index
into the per-menu memory. -/
def navigate_menu (st : UIState) (direction : KnobDirection) : UIState :=
  match st.menu_stack.getLast? with
  | none => st
  | some current_menu =>
    let option_count := current_menu.options.length
    let current_idx := st.focused_menu_option.getD 0
    let new_idx :=
      match direction with
      | KnobDirection.Forward =>
        if current_idx + 1 < option_count then current_idx + 1 else 0
      | KnobDirection.Backward =>
        if 0 < current_idx then current_idx - 1 else option_count - 1
    if new_idx ≠ current_idx then
      { st with focused_menu_option := some new_idx,
                menu_focus_memory := memoryInsert st.menu_focus_memory current_menu.id new_idx }
    else st

/-- The `NavigationLevel::Main` arm of `UI::navigate`.  From a node, follow
the link with the highest `visited_last` out of (Forward) or into (Backward)
the node, bumping its `visited_last` to a fresh global maximum (the link is
removed from the set, updated and re-inserted).  From a link, move to its
destination (Forward) or source (Backward) node unless that node is a
`Context` node, in which case the move is suppressed. -/
def navigate_main (st : UIState) (direction : KnobDirection) : UIState :=
  match st.focused_element with
  | some (Element.Node current_node_id) =>
    match direction with
    | KnobDirection.Forward =>
      match max_by_key (fun l => l.visited_last)
          (st.links.filter (fun l => l.from_id = current_node_id)) with
      | none => st
      | some link =>
        let remaining := linksRemove st.links link.from_id link.to_id
        let counter := st.visit_counter + 1
        let updated_link := { link with visited_last := counter }
        { st with
            links := remaining ++ [updated_link],
            visit_counter := counter,
            focused_element :=
              some (Element.Link updated_link.from_id updated_link.to_id
                updated_link.link_type) }
    | KnobDirection.Backward =>
      match max_by_key (fun l => l.visited_last)
          (st.links.filter (fun l => l.to_id = current_node_id)) with
      | none => st
      | some link =>
        let remaining := linksRemove st.links link.from_id link.to_id
        let counter := st.visit_counter + 1
        let updated_link := { link with visited_last := counter }
        { st with
            links := remaining ++ [updated_link],
            visit_counter := counter,
            focused_element :=
              some (Element.Link updated_link.from_id updated_link.to_id
                updated_link.link_type) }
  | some (Element.Link from_id to_id _) =>
    match direction with
    | KnobDirection.Forward =>
      match lookupNode st to_id with
      | none => st
      | some node =>
        if node.node_type ≠ NodeType.Context then
          { st with focused_element := some (Element.Node to_id) }
        else st
    | KnobDirection.Backward =>
      match lookupNode st from_id with
      | none => st
      | some node =>
        if node.node_type ≠ NodeType.Context then
          { st with focused_element := some (Element.Node from_id) }
        else st
  | some (Element.MenuOption _ _) => st
  | none => st

/-- The `NavigationLevel::Secondary` arm of `UI::navigate`.  From a link,
move among the sibling links sharing its `from_id` (excluding itself) via
`find_sibling_link`; no sibling found ⇒ no-op.  From a node, apply the same
sibling search to the most recently visited link pointing at the node and
focus the sibling's destination node, suppressed when that node is a
`Context` node. -/
def navigate_secondary (st : UIState) (direction : KnobDirection) : UIState :=
  match st.focused_element with
  | some (Element.Link from_id to_id _) =>
    match getLink st.links from_id to_id with
    | none => st
    | some current_link =>
      let current_order := current_link.order
      let sibling_links := st.links.filter
        (fun l => l.from_id = from_id ∧ ¬ (l.from_id = from_id ∧ l.to_id = to_id))
      match find_sibling_link sibling_links current_order direction with
      | none => st
      | some link =>
        { st with
            focused_element :=
              some (Element.Link link.from_id link.to_id link.link_type) }
  | some (Element.Node node_id) =>
    match max_by_key (fun l => l.visited_last)
        (st.links.filter (fun l => l.to_id = node_id)) with
    | none => st
    | some most_recent_link =>
      let current_order := most_recent_link.order
      let sibling_links := st.links.filter
        (fun l => l.from_id = most_recent_link.from_id ∧
          ¬ (l.from_id = most_recent_link.from_id ∧ l.to_id = most_recent_link.to_id))
      match find_sibling_link sibling_links current_order direction with
      | none => st
      | some sibling_link =>
        match lookupNode st sibling_link.to_id with
        | none => st
        | some node =>
          if node.node_type ≠ NodeType.Context then
            { st with focused_element := some (Element.Node sibling_link.to_id) }
          else st
  | some (Element.MenuOption _ _) => st
  | none => st

/-- `UI::navigate` from `src/ui/mod.rs`: with a menu open, a `Main`-level
gesture moves the focused menu option; otherwise dispatch on the level. -/
def navigate (st : UIState) (level : NavigationLevel) (direction : KnobDirection) :
    UIState :=
  if st.menu_stack ≠ [] ∧ level = NavigationLevel.Main then
    navigate_menu st direction
  else
    match level with
    | NavigationLevel.Main => navigate_main st direction
    | NavigationLevel.Secondary => navigate_secondary st direction

/-- `UI::select` from `src/ui/mod.rs`: with a menu open and a valid focused
option index, return that menu option; otherwise return the focused
element.  No state is mutated. -/
def select (st : UIState) : Option Element :=
  match st.menu_stack.getLast? with
  | some current_menu =>
    match st.focused_menu_option with
    | some idx =>
      match current_menu.options[idx]? with
      | some option => some (Element.MenuOption current_menu.id option.id)
      | none => st.focused_element
    | none => st.focused_element
  | none => st.focused_element

/-- `UI::open_menu` from `src/ui/mod.rs`: restore the remembered focused
option for the menu id (default `0`), clamp it to the option count, and push
the menu. -/
def open_menu (st : UIState) (menu : Menu) : UIState :=
  let focused_idx := (memoryGet st.menu_focus_memory menu.id).getD 0
  let focused_idx := if focused_idx < menu.options.length then focused_idx else 0
  { st with focused_menu_option := some focused_idx,
            menu_stack := st.menu_stack ++ [menu] }

/-- `UI::close_menu` from `src/ui/mod.rs`: pop one level, restoring the next
menu's remembered index, or clear the menu focus when the stack empties;
error (`false`) when no menu is open. -/
def close_menu (st : UIState) : UIState × Bool :=
  match st.menu_stack.getLast? with
  | none => (st, false)
  | some _ =>
    let stack := st.menu_stack.dropLast
    match stack.getLast? with
    | some current_menu =>
      let focused_idx := (memoryGet st.menu_focus_memory current_menu.id).getD 0
      ({ st with menu_stack := stack, focused_menu_option := some focused_idx }, true)
    | none =>
      ({ st with menu_stack := stack, focused_menu_option := none }, true)

/-- `UI::close_all_menus`. -/
def close_all_menus (st : UIState) : UIState :=
  { st with menu_stack := [] }

/-! ## Properties of the selection helpers -/

theorem min_by_key_eq_none {α : Type} (key : α → Int) (l : List α) :
    min_by_key key l = none ↔ l = [] := by
  cases l with
  | nil => simp [min_by_key]
  | cons a as =>
    constructor
    · intro h
      rw [min_by_key] at h
      split at h
      · simp at h
      · split at h <;> simp at h
    · intro h
      simp at h

theorem max_by_key_eq_none {α : Type} (key : α → Int) (l : List α) :
    max_by_key key l = none ↔ l = [] := by
  cases l with
  | nil => simp [max_by_key]
  | cons a as =>
    constructor
    · intro h
      rw [max_by_key] at h
      split at h
      · simp at h
      · split at h <;> simp at h
    · intro h
      simp at h

theorem min_by_key_mem {α : Type} (key : α → Int) :
    ∀ (l : List α) (x : α), min_by_key key l = some x → x ∈ l := by
  intro l
  induction l with
  | nil => intro x h; simp [min_by_key] at h
  | cons a as ih =>
    intro x h
    rw [min_by_key] at h
    split at h
    · cases h
      exact List.mem_cons_self a as
    · rename_i y hm
      split at h
      · cases h
        exact List.mem_cons_self a as
      · cases h
        exact List.mem_cons_of_mem _ (ih _ hm)

theorem max_by_key_mem {α : Type} (key : α → Int) :
    ∀ (l : List α) (x : α), max_by_key key l = some x → x ∈ l := by
  intro l
  induction l with
  | nil => intro x h; simp [max_by_key] at h
  | cons a as ih =>
    intro x h
    rw [max_by_key] at h
    split at h
    · cases h
      exact List.mem_cons_self a as
    · rename_i y hm
      split at h
      · cases h
        exact List.mem_cons_of_mem _ (ih _ hm)
      · cases h
        exact List.mem_cons_self a as

theorem min_by_key_le {α : Type} (key : α → Int) :
    ∀ (l : List α) (x : α), min_by_key key l = some x →
      ∀ y ∈ l, key x ≤ key y := by
  intro l
  induction l with
  | nil => intro x h; simp [min_by_key] at h
  | cons a as ih =>
    intro x h y hy
    rw [min_by_key] at h
    split at h
    · rename_i hm
      cases h
      have has : as = [] := (min_by_key_eq_none key as).mp hm
      subst has
      simp at hy
      subst hy
      exact le_refl _
    · rename_i z hm
      rcases List.mem_cons.mp hy with hya | hyas
      · subst hya
        split at h
        · cases h
          exact le_refl _
        · rename_i hk
          cases h
          exact le_of_lt (lt_of_not_le hk)
      · split at h
        · rename_i hk
          cases h
          exact hk.trans (ih _ hm _ hyas)
        · cases h
          exact ih _ hm _ hyas

theorem max_by_key_ge {α : Type} (key : α → Int) :
    ∀ (l : List α) (x : α), max_by_key key l = some x →
      ∀ y ∈ l, key y ≤ key x := by
  intro l
  induction l with
  | nil => intro x h; simp [max_by_key] at h
  | cons a as ih =>
    intro x h y hy
    rw [max_by_key] at h
    split at h
    · rename_i hm
      cases h
      have has : as = [] := (max_by_key_eq_none key as).mp hm
      subst has
      simp at hy
      subst hy
      exact le_refl _
    · rename_i z hm
      rcases List.mem_cons.mp hy with hya | hyas
      · subst hya
        split at h
        · rename_i hk
          cases h
          exact hk
        · cases h
          exact le_refl _
      · split at h
        · cases h
          exact ih _ hm _ hyas
        · rename_i hk
          cases h
          exact (ih _ hm _ hyas).trans (le_of_lt (lt_of_not_le hk))


/-- The sibling set used by secondary navigation in `UI::navigate`: all
links sharing the focused link's `from_id`, excluding the link itself. -/
def sibling_links_of (links : List Link) (f t : String) : List Link :=
  links.filter (fun l => l.from_id = f ∧ ¬ (l.from_id = f ∧ l.to_id = t))

/-- C4: with a link focused, secondary navigation searches only the sibling
links sharing the link's `from_id` (excluding the link itself): Forward
moves focus to the sibling with the smallest `order` strictly greater than
the current link's order, Backward to the sibling with the largest `order`
strictly smaller; when no such sibling exists the call is a no-op and the
whole state is unchanged (no wraparound). -/
theorem secondary_navigation_sibling_spec (st : UIState) (f t : String)
    (k : LinkType) (cur : Link)
    (hfoc : st.focused_element = some (Element.Link f t k))
    (hcur : getLink st.links f t = some cur) :
    (∀ direction,
      find_sibling_link (sibling_links_of st.links f t) cur.order direction = none →
        navigate st NavigationLevel.Secondary direction = st) ∧
    (∀ direction s,
      find_sibling_link (sibling_links_of st.links f t) cur.order direction = some s →
        navigate st NavigationLevel.Secondary direction =
          { st with focused_element := some (Element.Link s.from_id s.to_id s.link_type) }) ∧
    (∀ s, find_sibling_link (sibling_links_of st.links f t) cur.order
        KnobDirection.Forward = some s →
      s ∈ sibling_links_of st.links f t ∧ cur.order < s.order ∧
        ∀ l ∈ sibling_links_of st.links f t, cur.order < l.order → s.order ≤ l.order) ∧
    (find_sibling_link (sibling_links_of st.links f t) cur.order
        KnobDirection.Forward = none →
      ∀ l ∈ sibling_links_of st.links f t, ¬ cur.order < l.order) ∧
    (∀ s, find_sibling_link (sibling_links_of st.links f t) cur.order
        KnobDirection.Backward = some s →
      s ∈ sibling_links_of st.links f t ∧ s.order < cur.order ∧
        ∀ l ∈ sibling_links_of st.links f t, l.order < cur.order → l.order ≤ s.order) ∧
    (find_sibling_link (sibling_links_of st.links f t) cur.order
        KnobDirection.Backward = none →
      ∀ l ∈ sibling_links_of st.links f t, ¬ l.order < cur.order) := by
  have hnav : ∀ d, navigate st NavigationLevel.Secondary d = navigate_secondary st d := by
    intro d
    unfold navigate
    rw [if_neg (by simp)]
  have hns : ∀ d, navigate_secondary st d =
      (match find_sibling_link (sibling_links_of st.links f t) cur.order d with
       | none => st
       | some link =>
         { st with
             focused_element :=
               some (Element.Link link.from_id link.to_id link.link_type) }) := by
    intro d
    simp only [navigate_secondary, hfoc, hcur, sibling_links_of]
  refine ⟨?_, ?_, ?_, ?_, ?_, ?_⟩
  · intro d hn
    rw [hnav, hns, hn]
  · intro d s hs
    rw [hnav, hns, hs]
  · intro s hs
    unfold find_sibling_link at hs
    have hmem := min_by_key_mem _ _ _ hs
    have hle := min_by_key_le _ _ _ hs
    refine ⟨(List.mem_filter.mp hmem).1, ?_, ?_⟩
    · have := (List.mem_filter.mp hmem).2
      simpa using this
    · intro l hl hlo
      exact hle l (List.mem_filter.mpr ⟨hl, by simpa using hlo⟩)
  · intro hn l hl hlo
    unfold find_sibling_link at hn
    have hempty := (min_by_key_eq_none _ _).mp hn
    have hmem : l ∈ (sibling_links_of st.links f t).filter
        (fun l => cur.order < l.order) :=
      List.mem_filter.mpr ⟨hl, by simpa using hlo⟩
    rw [hempty] at hmem
    simp at hmem
  · intro s hs
    unfold find_sibling_link at hs
    have hmem := max_by_key_mem _ _ _ hs
    have hge := max_by_key_ge _ _ _ hs
    refine ⟨(List.mem_filter.mp hmem).1, ?_, ?_⟩
    · have := (List.mem_filter.mp hmem).2
      simpa using this
    · intro l hl hlo
      exact hge l (List.mem_filter.mpr ⟨hl, by simpa using hlo⟩)
  · intro hn l hl hlo
    unfold find_sibling_link at hn
    have hempty := (max_by_key_eq_none _ _).mp hn
    have hmem : l ∈ (sibling_links_of st.links f t).filter
        (fun l => l.order < cur.order) :=
      List.mem_filter.mpr ⟨hl, by simpa using hlo⟩
    rw [hempty] at hmem
    simp at hmem

/-- A small concrete graph for the secondary-navigation witness: three nodes
`a`, `b`, `c`, links `a → b` (order 1, focused) and `a → c` (order 2). -/
def sibW : UIState :=
  { nodes := [⟨"a", "A", NodeType.Normal⟩, ⟨"b", "B", NodeType.Normal⟩,
              ⟨"c", "C", NodeType.Normal⟩],
    links := [⟨"a", "b", -1, 1, LinkType.Normal⟩, ⟨"a", "c", -2, 2, LinkType.Normal⟩],
    focused_element := some (Element.Link "a" "b" LinkType.Normal),
    visit_counter := 0, order_counter := 2, menu_stack := [],
    focused_menu_option := none, menu_focus_memory := [], session_name := none }

/-- Witness for `secondary_navigation_sibling_spec`: on `sibW`, a Forward
secondary gesture moves focus from `a → b` to its sibling `a → c`, and a
Backward gesture (no smaller-order sibling) is a no-op. -/
theorem secondary_navigation_sibling_spec_witness :
    sibW.focused_element = some (Element.Link "a" "b" LinkType.Normal) ∧
    getLink sibW.links "a" "b" = some ⟨"a", "b", -1, 1, LinkType.Normal⟩ ∧
    navigate sibW NavigationLevel.Secondary KnobDirection.Forward =
      { sibW with focused_element := some (Element.Link "a" "c" LinkType.Normal) } ∧
    navigate sibW NavigationLevel.Secondary KnobDirection.Backward = sibW := by
  refine ⟨rfl, by decide, ?_, ?_⟩
  · exact (secondary_navigation_sibling_spec sibW "a" "b" LinkType.Normal
      ⟨"a", "b", -1, 1, LinkType.Normal⟩ rfl (by decide)).2.1 KnobDirection.Forward
      ⟨"a", "c", -2, 2, LinkType.Normal⟩ (by decide)
  · exact (secondary_navigation_sibling_spec sibW "a" "b" LinkType.Normal
      ⟨"a", "b", -1, 1, LinkType.Normal⟩ rfl (by decide)).1 KnobDirection.Backward
      (by decide)

/-! ## Navigation never focuses a Context node -/

/-- A focused node always refers to a present, non-`Context` node. -/
def FocusNotContext (st : UIState) : Prop :=
  ∀ id, st.focused_element = some (Element.Node id) →
    ∃ n, lookupNode st id = some n ∧ n.node_type ≠ NodeType.Context

/-- A sequence of `UI::navigate` calls. -/
def navigate_seq (st : UIState) :
    List (NavigationLevel × KnobDirection) → UIState
  | [] => st
  | g :: rest => navigate_seq (navigate st g.1 g.2) rest

theorem navigate_menu_invariants (st : UIState) (d : KnobDirection) :
    (navigate_menu st d).focused_element = st.focused_element ∧
    (navigate_menu st d).nodes = st.nodes := by
  unfold navigate_menu
  split
  · exact ⟨rfl, rfl⟩
  · split <;> (dsimp only; split <;> split <;> exact ⟨rfl, rfl⟩)

theorem navigate_main_preserves (st : UIState) (d : KnobDirection)
    (h : FocusNotContext st) : FocusNotContext (navigate_main st d) := by
  unfold navigate_main
  split
  · split <;> (split <;> first
      | exact h
      | (intro id hid; simp at hid))
  · split
    · split
      · exact h
      · rename_i node heq
        split
        · rename_i hne
          intro id hid
          simp at hid
          subst hid
          exact ⟨node, by simpa [lookupNode] using heq, hne⟩
        · exact h
    · split
      · exact h
      · rename_i node heq
        split
        · rename_i hne
          intro id hid
          simp at hid
          subst hid
          exact ⟨node, by simpa [lookupNode] using heq, hne⟩
        · exact h
  · exact h
  · exact h

theorem navigate_secondary_preserves (st : UIState) (d : KnobDirection)
    (h : FocusNotContext st) : FocusNotContext (navigate_secondary st d) := by
  unfold navigate_secondary
  split
  · split
    · exact h
    · dsimp only
      split
      · exact h
      · intro id hid
        simp at hid
  · split
    · exact h
    · dsimp only
      split
      · exact h
      · split
        · exact h
        · rename_i node heq
          split
          · rename_i hne
            intro id hid
            simp at hid
            subst hid
            exact ⟨node, by simpa [lookupNode] using heq, hne⟩
          · exact h
  · exact h
  · exact h


theorem navigate_preserves (st : UIState) (level : NavigationLevel)
    (d : KnobDirection) (h : FocusNotContext st) :
    FocusNotContext (navigate st level d) := by
  unfold navigate
  split
  · intro id hid
    rw [(navigate_menu_invariants st d).1] at hid
    obtain ⟨n, hn1, hn2⟩ := h id hid
    refine ⟨n, ?_, hn2⟩
    unfold lookupNode at hn1 ⊢
    rw [(navigate_menu_invariants st d).2]
    exact hn1
  · cases level with
    | Main => exact navigate_main_preserves st d h
    | Secondary => exact navigate_secondary_preserves st d h

theorem navigate_seq_preserves :
    ∀ (gestures : List (NavigationLevel × KnobDirection)) (st : UIState),
      FocusNotContext st → FocusNotContext (navigate_seq st gestures)
  | [], _, h => h
  | g :: rest, st, h =>
    navigate_seq_preserves rest (navigate st g.1 g.2)
      (navigate_preserves st g.1 g.2 h)

/-- C3: for any sequence of primary or secondary Forward/Backward navigation
calls from any starting focus satisfying the focus invariant, the focused
element is never a `Context`-kind node, and a main-level navigation step
from a link whose target node is a `Context` node is suppressed: the state
is unchanged. -/
theorem navigation_never_focuses_context :
    (∀ (gestures : List (NavigationLevel × KnobDirection)) (st : UIState),
      FocusNotContext st → FocusNotContext (navigate_seq st gestures)) ∧
    (∀ (st : UIState) (f t : String) (k : LinkType) (node : Node),
      st.menu_stack = [] →
      st.focused_element = some (Element.Link f t k) →
      lookupNode st t = some node → node.node_type = NodeType.Context →
      navigate st NavigationLevel.Main KnobDirection.Forward = st) ∧
    (∀ (st : UIState) (f t : String) (k : LinkType) (node : Node),
      st.menu_stack = [] →
      st.focused_element = some (Element.Link f t k) →
      lookupNode st f = some node → node.node_type = NodeType.Context →
      navigate st NavigationLevel.Main KnobDirection.Backward = st) := by
  refine ⟨navigate_seq_preserves, ?_, ?_⟩
  · intro st f t k node hmenu hfoc hlook hctx
    unfold navigate
    rw [if_neg (by simp [hmenu])]
    unfold navigate_main
    rw [hfoc]
    simp only [hlook, hctx]
    simp
  · intro st f t k node hmenu hfoc hlook hctx
    unfold navigate
    rw [if_neg (by simp [hmenu])]
    unfold navigate_main
    rw [hfoc]
    simp only [hlook, hctx]
    simp

/-- The initial graph built in `Controller::new`: the two `Context` anchors
`inputs` / `outputs` and the sentinel link between them (pinned to the
maximal order), which becomes the focused element. -/
def ctxW : UIState :=
  { nodes := [⟨"inputs", "Inputs", NodeType.Context⟩,
              ⟨"outputs", "Outputs", NodeType.Context⟩],
    links := [⟨"inputs", "outputs", -i64Max, i64Max, LinkType.Virtual⟩],
    focused_element := some (Element.Link "inputs" "outputs" LinkType.Virtual),
    visit_counter := 0, order_counter := 1, menu_stack := [],
    focused_menu_option := none, menu_focus_memory := [], session_name := none }

/-- Witness for `navigation_never_focuses_context` on the initial graph:
the focus invariant is preserved by a concrete gesture sequence, and a
Forward step on the sentinel link (whose target `outputs` is a `Context`
node) leaves the state unchanged. -/
theorem navigation_never_focuses_context_witness :
    FocusNotContext ctxW ∧
    FocusNotContext (navigate_seq ctxW
      [(NavigationLevel.Main, KnobDirection.Forward),
       (NavigationLevel.Secondary, KnobDirection.Backward)]) ∧
    navigate ctxW NavigationLevel.Main KnobDirection.Forward = ctxW := by
  have hfc : FocusNotContext ctxW := fun id hid => nomatch hid
  refine ⟨hfc, navigation_never_focuses_context.1 _ ctxW hfc, ?_⟩
  exact navigation_never_focuses_context.2.1 ctxW "inputs" "outputs"
    LinkType.Virtual ⟨"outputs", "Outputs", NodeType.Context⟩ rfl rfl (by decide) rfl

/-! ## Link-key uniqueness over graph operation sequences -/

/-- The structural operations of the graph model, as invoked by the
controller and the features. -/
inductive GraphOp
  | createNode (id name : String) (node_type : NodeType)
  | removeNode (id : String)
  | createLink (from_id to_id : String) (link_type : LinkType)
  | removeLink (from_id to_id : String)
  | insertNode (node_id node_name : String) (node_type : NodeType)
      (link_from link_to : String)
  | navigateOp (level : NavigationLevel) (direction : KnobDirection)

/-- Apply one operation, keeping the mutated state also when the source
method returns an error. -/
def applyOp (st : UIState) : GraphOp → UIState
  | GraphOp.createNode id name t => create_node st id name t
  | GraphOp.removeNode id => (remove_node st id).1
  | GraphOp.createLink f t k => (create_link st f t k).1
  | GraphOp.removeLink f t => (remove_link st f t).1
  | GraphOp.insertNode id name t f tl => (insert_node st id name t f tl).1
  | GraphOp.navigateOp level direction => navigate st level direction

/-- Apply a sequence of graph operations. -/
def applyOps (st : UIState) (ops : List GraphOp) : UIState :=
  ops.foldl applyOp st

/-- At most one link per `(from_id, to_id)` key. -/
def KeysNodup (links : List Link) : Prop :=
  List.Pairwise (fun a b => ¬ (a.from_id = b.from_id ∧ a.to_id = b.to_id)) links

theorem keysNodup_linksInsert (links : List Link) (link : Link)
    (h : KeysNodup links) : KeysNodup (linksInsert links link) := by
  unfold linksInsert
  split
  · exact h
  · rename_i hnotin
    unfold KeysNodup
    rw [List.pairwise_append]
    refine ⟨h, List.pairwise_singleton _ _, ?_⟩
    intro a ha b hb hab
    simp only [List.mem_singleton] at hb
    subst hb
    exfalso
    apply hnotin
    unfold linkExists
    rw [List.any_eq_true]
    refine ⟨a, ha, ?_⟩
    unfold Link.sameKey
    simp [hab.1, hab.2]

theorem keysNodup_linksRemove (links : List Link) (f t : String)
    (h : KeysNodup links) : KeysNodup (linksRemove links f t) :=
  List.Pairwise.filter _ h

theorem keysNodup_removeAppend (links : List Link) (f t : String) (upd : Link)
    (hf : upd.from_id = f) (ht : upd.to_id = t)
    (h : KeysNodup links) : KeysNodup (linksRemove links f t ++ [upd]) := by
  unfold KeysNodup
  rw [List.pairwise_append]
  refine ⟨keysNodup_linksRemove links f t h, List.pairwise_singleton _ _, ?_⟩
  intro a ha b hb hab
  simp only [List.mem_singleton] at hb
  subst hb
  have hmem := List.of_mem_filter ha
  simp [Link.sameKey] at hmem
  rcases hmem with h1 | h2
  · exact h1 (hab.1.trans hf)
  · exact h2 (hab.2.trans ht)

theorem create_link_preserves_keysNodup (st : UIState) (f t : String)
    (k : LinkType) (h : KeysNodup st.links) :
    KeysNodup ((create_link st f t k).1).links := by
  unfold create_link
  split
  · exact h
  · split
    · exact h
    · exact keysNodup_linksInsert st.links _ h

theorem remove_link_preserves_keysNodup (st : UIState) (f t : String)
    (h : KeysNodup st.links) :
    KeysNodup ((remove_link st f t).1).links := by
  unfold remove_link
  split
  · exact keysNodup_linksRemove st.links f t h
  · exact h

theorem create_node_links (st : UIState) (id name : String) (t : NodeType) :
    (create_node st id name t).links = st.links := by
  unfold create_node
  dsimp only
  split <;> rfl

theorem navigate_preserves_keysNodup (st : UIState) (level : NavigationLevel)
    (direction : KnobDirection) (h : KeysNodup st.links) :
    KeysNodup (navigate st level direction).links := by
  unfold navigate
  split
  · have hml : (navigate_menu st direction).links = st.links := by
      unfold navigate_menu
      split
      · rfl
      · split <;> (dsimp only; split <;> split <;> rfl)
    rw [hml]
    exact h
  · cases level with
    | Main =>
      dsimp only
      unfold navigate_main
      split
      · split
        · split
          · exact h
          · exact keysNodup_removeAppend st.links _ _ _ rfl rfl h
        · split
          · exact h
          · exact keysNodup_removeAppend st.links _ _ _ rfl rfl h
      · split <;> (split <;> (first | exact h | (split <;> exact h)))
      · exact h
      · exact h
    | Secondary =>
      dsimp only
      unfold navigate_secondary
      split
      · split
        · exact h
        · dsimp only
          split
          · exact h
          · exact h
      · split
        · exact h
        · dsimp only
          split
          · exact h
          · split
            · exact h
            · split
              · exact h
              · exact h
      · exact h
      · exact h

theorem insert_node_preserves_keysNodup (st : UIState)
    (node_id node_name : String) (node_type : NodeType)
    (link_from link_to : String) (h : KeysNodup st.links) :
    KeysNodup ((insert_node st node_id node_name node_type link_from link_to).1).links := by
  unfold insert_node
  have h1 : KeysNodup (create_node st node_id node_name node_type).links := by
    rw [create_node_links]
    exact h
  dsimp only
  split
  · split
    · split
      · exact remove_link_preserves_keysNodup _ _ _
          (create_link_preserves_keysNodup _ _ _ _
            (create_link_preserves_keysNodup _ _ _ _ h1))
      · exact create_link_preserves_keysNodup _ _ _ _
          (create_link_preserves_keysNodup _ _ _ _ h1)
    · exact create_link_preserves_keysNodup _ _ _ _
        (create_link_preserves_keysNodup _ _ _ _ h1)
  · exact create_link_preserves_keysNodup _ _ _ _ h1

theorem applyOp_preserves_keysNodup (st : UIState) (op : GraphOp)
    (h : KeysNodup st.links) : KeysNodup (applyOp st op).links := by
  cases op with
  | createNode id name t =>
    simp only [applyOp]
    rw [create_node_links]
    exact h
  | removeNode id =>
    simp only [applyOp]
    unfold remove_node
    split <;> exact h
  | createLink f t k =>
    simp only [applyOp]
    exact create_link_preserves_keysNodup st f t k h
  | removeLink f t =>
    simp only [applyOp]
    exact remove_link_preserves_keysNodup st f t h
  | insertNode id name t f tl =>
    simp only [applyOp]
    exact insert_node_preserves_keysNodup st id name t f tl h
  | navigateOp level direction =>
    simp only [applyOp]
    exact navigate_preserves_keysNodup st level direction h

theorem applyOps_preserves_keysNodup :
    ∀ (ops : List GraphOp) (st : UIState), KeysNodup st.links →
      KeysNodup (applyOps st ops).links
  | [], _, h => h
  | op :: rest, st, h =>
    applyOps_preserves_keysNodup rest (applyOp st op)
      (applyOp_preserves_keysNodup st op h)

/-- C2 (amended): for every pair `(a, b)` and every sequence of graph
operations, at most one link with `from_id = a`, `to_id = b` exists at any
time, and `create_link (a, b)` when such a link already exists leaves the
link set — and hence the link count — entirely unchanged: the existing
link's metadata is kept, no duplicate is added. -/
theorem link_key_unique_invariant :
    (∀ (ops : List GraphOp) (st : UIState), KeysNodup st.links →
      KeysNodup (applyOps st ops).links) ∧
    (∀ (st : UIState) (a b : String) (k : LinkType),
      linkExists st.links a b = true →
        (create_link st a b k).1.links = st.links ∧
        ((create_link st a b k).1.links).length = st.links.length) := by
  refine ⟨applyOps_preserves_keysNodup, ?_⟩
  intro st a b k hex
  have hlinks : (create_link st a b k).1.links = st.links := by
    unfold create_link
    split
    · rfl
    · split
      · rfl
      · dsimp only
        unfold linksInsert
        rw [if_pos hex]
  exact ⟨hlinks, by rw [hlinks]⟩

/-- The state after creating nodes `a`, `b`, the link `a → b` of kind
`Normal`, and then calling `create_link` again on the same pair with kind
`Virtual`. -/
def dupW : UIState :=
  applyOps UI_new
    [GraphOp.createNode "a" "A" NodeType.Normal,
     GraphOp.createNode "b" "B" NodeType.Normal,
     GraphOp.createLink "a" "b" LinkType.Normal,
     GraphOp.createLink "a" "b" LinkType.Virtual]

/-- Counterexample to C2 as stated: re-creating the existing link `a → b`
with a different kind does not replace the stored link's metadata — the
stored kind is still the original `Normal`, not the newly supplied
`Virtual` (`HashSet::insert` keeps the existing element). -/
theorem create_link_existing_keeps_old_metadata :
    (getLink dupW.links "a" "b").map (fun l => l.link_type) =
        some LinkType.Normal ∧
    (getLink dupW.links "a" "b").map (fun l => l.link_type) ≠
        some LinkType.Virtual := by
  constructor <;> decide

/-- The state of `dupW` just before the duplicate `create_link` call. -/
def preDupW : UIState :=
  applyOps UI_new
    [GraphOp.createNode "a" "A" NodeType.Normal,
     GraphOp.createNode "b" "B" NodeType.Normal,
     GraphOp.createLink "a" "b" LinkType.Normal]

/-- Witness for `link_key_unique_invariant`: the duplicate-free invariant
propagates through the concrete operation sequence of `dupW` from the empty
initial state, and the second `create_link "a" "b"` call left the link set
unchanged. -/
theorem link_key_unique_invariant_witness :
    KeysNodup UI_new.links ∧ KeysNodup dupW.links ∧
    (linkExists preDupW.links "a" "b" = true ∧
      (create_link preDupW "a" "b" LinkType.Virtual).1.links = preDupW.links) := by
  have h0 : KeysNodup UI_new.links := List.Pairwise.nil
  refine ⟨h0, link_key_unique_invariant.1 _ UI_new h0, by decide,
    (link_key_unique_invariant.2 preDupW "a" "b" LinkType.Virtual (by decide)).1⟩

/-! ## Focus after removals -/

/-- C9 (amended): at most one element is focused at any time (the focus is a
single `Option Element` by construction), but `remove_node` and
`remove_link` leave the focused element untouched, so removing the focused
entity leaves the focus pointing at an entity that is no longer present. -/
theorem remove_ops_keep_focus_unchanged :
    ∀ (st : UIState) (id f t : String),
      (remove_node st id).1.focused_element = st.focused_element ∧
      (remove_link st f t).1.focused_element = st.focused_element := by
  intro st id f t
  constructor
  · unfold remove_node
    split <;> rfl
  · unfold remove_link
    split <;> rfl

/-- The state after creating the single normal node `a` (which becomes the
focused element) in a fresh UI. -/
def danglingW : UIState :=
  applyOp UI_new (GraphOp.createNode "a" "A" NodeType.Normal)

/-- Counterexample to C9 as stated: removing the focused node `a` leaves
the focus still pointing at `Node "a"`, which is no longer present in the
graph. -/
theorem remove_node_leaves_dangling_focus :
    (remove_node danglingW "a").1.focused_element = some (Element.Node "a") ∧
    lookupNode (remove_node danglingW "a").1 "a" = none := by
  constructor <;> decide

/-! ## `insert_node` against the §3 link-kind derivation rule -/

/-- The §3 derivation rule, written from the spec's words: Context→Context =
Virtual, Context→PortIn = PortIn, PortOut→Context = PortOut, all other
Node↔Context combinations = Virtual, everything else = Normal.  Stated
separately from `calculate_link_type` so the code can be compared against
the spec's rule. -/
def linkKindSpec : NodeType → NodeType → LinkType
  | NodeType.Context, NodeType.Context => LinkType.Virtual
  | NodeType.Context, NodeType.PortIn => LinkType.PortIn
  | NodeType.PortOut, NodeType.Context => LinkType.PortOut
  | _, NodeType.Context => LinkType.Virtual
  | NodeType.Context, _ => LinkType.Virtual
  | _, _ => LinkType.Normal

theorem calculate_link_type_agrees_with_spec (a b : NodeType) :
    calculate_link_type (some a) (some b) = linkKindSpec a b := by
  cases a <;> cases b <;> rfl

theorem find?_filter_of_imp {α : Type} (p q : α → Bool)
    (himp : ∀ x, p x = true → q x = true) :
    ∀ l : List α, (l.filter q).find? p = l.find? p := by
  intro l
  induction l with
  | nil => rfl
  | cons a as ih =>
    by_cases hq : q a = true
    · rw [List.filter_cons_of_pos hq]
      by_cases hp : p a = true
      · rw [List.find?_cons_of_pos _ hp, List.find?_cons_of_pos _ hp]
      · rw [List.find?_cons_of_neg _ (by simpa using hp),
          List.find?_cons_of_neg _ (by simpa using hp)]
        exact ih
    · rw [List.filter_cons_of_neg (by simpa using hq)]
      have hp : ¬ p a = true := fun hpa => hq (himp a hpa)
      rw [List.find?_cons_of_neg _ (by simpa using hp)]
      exact ih

theorem lookupNode_create_node_self (st : UIState) (id name : String)
    (t : NodeType) :
    lookupNode (create_node st id name t) id =
      some { id := id, name := name, node_type := t } := by
  have hnodes : (create_node st id name t).nodes =
      nodesInsert st.nodes { id := id, name := name, node_type := t } := by
    unfold create_node
    dsimp only
    split <;> rfl
  unfold lookupNode
  rw [hnodes]
  unfold nodesInsert
  rw [List.find?_append]
  have h1 : (st.nodes.filter (fun n => n.id ≠ id)).find?
      (fun n => n.id = id) = none := by
    rw [List.find?_eq_none]
    intro x hx
    have hmem := List.of_mem_filter hx
    simp at hmem ⊢
    exact hmem
  rw [h1]
  simp

theorem lookupNode_create_node_other (st : UIState) (id name other : String)
    (t : NodeType) (hne : other ≠ id) :
    lookupNode (create_node st id name t) other = lookupNode st other := by
  have hnodes : (create_node st id name t).nodes =
      nodesInsert st.nodes { id := id, name := name, node_type := t } := by
    unfold create_node
    dsimp only
    split <;> rfl
  unfold lookupNode
  rw [hnodes]
  unfold nodesInsert
  rw [List.find?_append]
  have h1 : (st.nodes.filter (fun n => n.id ≠ id)).find?
      (fun n => n.id = other) = st.nodes.find? (fun n => n.id = other) := by
    apply find?_filter_of_imp
    intro x hx
    simp at hx ⊢
    rw [hx]
    exact hne
  rw [h1]
  cases hfind : st.nodes.find? (fun n => n.id = other) with
  | some n => rfl
  | none =>
    have hid : id ≠ other := fun hco => hne hco.symm
    simp [List.find?, hid]

theorem getLink_eq_none_of_not_exists (links : List Link) (f t : String)
    (h : linkExists links f t = false) : getLink links f t = none := by
  unfold getLink
  rw [List.find?_eq_none]
  intro x hx
  unfold linkExists at h
  rw [List.any_eq_false] at h
  exact fun hk => (h x hx) hk

/-- Behaviour of `create_link` on a pair not yet linked, with both endpoints
present: it succeeds and appends exactly one link carrying the requested
kind; nodes are untouched. -/
theorem create_link_new_spec (st : UIState) (f t : String) (k : LinkType)
    (nf nt : Node)
    (hf : lookupNode st f = some nf) (ht : lookupNode st t = some nt)
    (hnex : linkExists st.links f t = false) :
    ∃ ord : Int,
      (create_link st f t k).1.links =
        st.links ++ [{ from_id := f, to_id := t, visited_last := -ord,
                       order := ord, link_type := k }] ∧
      (create_link st f t k).2 = true ∧
      (create_link st f t k).1.nodes = st.nodes := by
  unfold create_link
  rw [hf, ht]
  refine ⟨if nf.node_type == NodeType.Context && nt.node_type == NodeType.Context
    then i64Max else st.order_counter + 1, ?_⟩
  simp only [Option.isNone_some, Bool.false_eq_true, if_false, Option.map_some,
    Option.getD_some]
  unfold linksInsert
  simp only [hnex, Bool.false_eq_true, if_false]
  simp

theorem linkExists_append (l1 l2 : List Link) (f t : String) :
    linkExists (l1 ++ l2) f t = (linkExists l1 f t || linkExists l2 f t) := by
  unfold linkExists
  exact List.any_append

theorem getLink_append_left_none (l1 l2 : List Link) (f t : String)
    (h : linkExists l1 f t = false) :
    getLink (l1 ++ l2) f t = getLink l2 f t := by
  unfold getLink
  rw [List.find?_append]
  have := getLink_eq_none_of_not_exists l1 f t h
  unfold getLink at this
  rw [this]
  rfl

theorem linkExists_remove_of_not_exists (links : List Link) (f t f' t' : String)
    (h : linkExists links f' t' = false) :
    linkExists (linksRemove links f t) f' t' = false := by
  unfold linkExists at h ⊢
  unfold linksRemove
  rw [List.any_eq_false] at h ⊢
  intro x hx
  exact h x (List.mem_of_mem_filter hx)

theorem linkExists_remove_self (links : List Link) (f t : String) :
    linkExists (linksRemove links f t) f t = false := by
  unfold linkExists linksRemove
  rw [List.any_eq_false]
  intro x hx
  have hmem := List.of_mem_filter hx
  simpa using hmem

theorem getLink_two_new (A : List Link) (link_from node_id link_to : String)
    (l1 l2 : Link)
    (h1f : l1.from_id = link_from) (h1t : l1.to_id = node_id)
    (h2f : l2.from_id = node_id) (h2t : l2.to_id = link_to)
    (hA1 : linkExists A link_from node_id = false)
    (hA2 : linkExists A node_id link_to = false)
    (hne_f : node_id ≠ link_from) :
    getLink ((A ++ [l1]) ++ [l2]) link_from node_id = some l1 ∧
    getLink ((A ++ [l1]) ++ [l2]) node_id link_to = some l2 := by
  have hfindA1 : A.find? (fun l => l.sameKey link_from node_id) = none := by
    have := getLink_eq_none_of_not_exists A _ _ hA1
    unfold getLink at this
    exact this
  have hfindA2 : A.find? (fun l => l.sameKey node_id link_to) = none := by
    have := getLink_eq_none_of_not_exists A _ _ hA2
    unfold getLink at this
    exact this
  have hnf' : link_from ≠ node_id := Ne.symm hne_f
  constructor
  · unfold getLink
    rw [List.find?_append, List.find?_append, hfindA1]
    have hl1find : [l1].find? (fun l => l.sameKey link_from node_id) = some l1 := by
      simp [List.find?, Link.sameKey, h1f, h1t]
    simp [hl1find]
  · unfold getLink
    rw [List.find?_append, List.find?_append, hfindA2]
    have hl1none : [l1].find? (fun l => l.sameKey node_id link_to) = none := by
      simp [List.find?, Link.sameKey, h1f, hnf']
    have hl2find : [l2].find? (fun l => l.sameKey node_id link_to) = some l2 := by
      simp [List.find?, Link.sameKey, h2f, h2t]
    simp [hl1none, hl2find]

theorem linksRemove_append (a b : List Link) (f t : String) :
    linksRemove (a ++ b) f t = linksRemove a f t ++ linksRemove b f t := by
  unfold linksRemove
  exact List.filter_append _ _

/-- C5: `insert_node(new, link_from, link_to)` with both endpoints present
(and the new id fresh, the two new pairs not yet linked, the original edge
present) succeeds, creates the new node, creates `link_from → new` and
`new → link_to` with kinds given by the §3 derivation rule on the adjacent
node kinds, and removes the original `link_from → link_to` edge — except
when that edge is the sentinel `inputs → outputs` edge, which is kept. -/
theorem insert_node_spec (st : UIState) (node_id node_name : String)
    (node_type : NodeType) (link_from link_to : String) (nf nt : Node)
    (hf : lookupNode st link_from = some nf)
    (ht : lookupNode st link_to = some nt)
    (hfresh : lookupNode st node_id = none)
    (hl1 : linkExists st.links link_from node_id = false)
    (hl2 : linkExists st.links node_id link_to = false)
    (horig : linkExists st.links link_from link_to = true) :
    (insert_node st node_id node_name node_type link_from link_to).2 = true ∧
    lookupNode (insert_node st node_id node_name node_type link_from link_to).1
        node_id = some { id := node_id, name := node_name, node_type := node_type } ∧
    (getLink (insert_node st node_id node_name node_type link_from link_to).1.links
        link_from node_id).map (fun l => l.link_type) =
      some (linkKindSpec nf.node_type node_type) ∧
    (getLink (insert_node st node_id node_name node_type link_from link_to).1.links
        node_id link_to).map (fun l => l.link_type) =
      some (linkKindSpec node_type nt.node_type) ∧
    (if link_from = "inputs" ∧ link_to = "outputs" then
        linkExists (insert_node st node_id node_name node_type link_from link_to).1.links
          link_from link_to = true
      else
        linkExists (insert_node st node_id node_name node_type link_from link_to).1.links
          link_from link_to = false) := by
  have hne_f : node_id ≠ link_from := by
    intro he
    rw [he, hf] at hfresh
    simp at hfresh
  have hne_t : node_id ≠ link_to := by
    intro he
    rw [he, ht] at hfresh
    simp at hfresh
  have hn_new := lookupNode_create_node_self st node_id node_name node_type
  have hn_f : lookupNode (create_node st node_id node_name node_type) link_from =
      some nf := by
    rw [lookupNode_create_node_other st node_id node_name link_from node_type
      (Ne.symm hne_f)]
    exact hf
  have hn_t : lookupNode (create_node st node_id node_name node_type) link_to =
      some nt := by
    rw [lookupNode_create_node_other st node_id node_name link_to node_type
      (Ne.symm hne_t)]
    exact ht
  have hlinks1 : (create_node st node_id node_name node_type).links = st.links :=
    create_node_links st node_id node_name node_type
  unfold insert_node
  dsimp only
  rw [hn_f, hn_t]
  dsimp only [Option.map]
  rw [calculate_link_type_agrees_with_spec, calculate_link_type_agrees_with_spec]
  obtain ⟨ord1, hr1links, hr1ok, hr1nodes⟩ :=
    create_link_new_spec (create_node st node_id node_name node_type)
      link_from node_id (linkKindSpec nf.node_type node_type)
      nf { id := node_id, name := node_name, node_type := node_type }
      hn_f hn_new (by rw [hlinks1]; exact hl1)
  rw [hr1ok, if_pos rfl]
  have hlookR1_new : lookupNode (create_link
      (create_node st node_id node_name node_type) link_from node_id
      (linkKindSpec nf.node_type node_type)).1 node_id =
      some { id := node_id, name := node_name, node_type := node_type } := by
    unfold lookupNode
    rw [hr1nodes]
    exact hn_new
  have hlookR1_t : lookupNode (create_link
      (create_node st node_id node_name node_type) link_from node_id
      (linkKindSpec nf.node_type node_type)).1 link_to = some nt := by
    unfold lookupNode
    rw [hr1nodes]
    exact hn_t
  have hnex2 : linkExists (create_link
      (create_node st node_id node_name node_type) link_from node_id
      (linkKindSpec nf.node_type node_type)).1.links node_id link_to = false := by
    rw [hr1links, hlinks1, linkExists_append, hl2]
    simp [linkExists, Link.sameKey, Ne.symm hne_f]
  obtain ⟨ord2, hr2links, hr2ok, hr2nodes⟩ :=
    create_link_new_spec (create_link
      (create_node st node_id node_name node_type) link_from node_id
      (linkKindSpec nf.node_type node_type)).1
      node_id link_to (linkKindSpec node_type nt.node_type)
      { id := node_id, name := node_name, node_type := node_type } nt
      hlookR1_new hlookR1_t hnex2
  rw [hr2ok, if_pos rfl]
  by_cases hsent : link_from = "inputs" ∧ link_to = "outputs"
  · rw [if_neg (not_not_intro hsent), if_pos hsent]
    obtain ⟨hg1, hg2⟩ := getLink_two_new st.links link_from node_id link_to
      { from_id := link_from, to_id := node_id, visited_last := -ord1,
        order := ord1, link_type := linkKindSpec nf.node_type node_type }
      { from_id := node_id, to_id := link_to, visited_last := -ord2,
        order := ord2, link_type := linkKindSpec node_type nt.node_type }
      rfl rfl rfl rfl hl1 hl2 hne_f
    refine ⟨rfl, ?_, ?_, ?_, ?_⟩
    · unfold lookupNode
      rw [hr2nodes, hr1nodes]
      exact hn_new
    · rw [hr2links, hr1links, hlinks1, hg1]
    · rw [hr2links, hr1links, hlinks1, hg2]
    · rw [hr2links, hr1links, hlinks1, linkExists_append, linkExists_append, horig]
      simp
  · rw [if_pos hsent, if_neg hsent]
    have hex : linkExists (create_link (create_link
        (create_node st node_id node_name node_type) link_from node_id
        (linkKindSpec nf.node_type node_type)).1
        node_id link_to (linkKindSpec node_type nt.node_type)).1.links
        link_from link_to = true := by
      rw [hr2links, hr1links, hlinks1, linkExists_append, linkExists_append, horig]
      simp
    unfold remove_link
    rw [hex, if_pos rfl]
    have hrwlinks : linksRemove (create_link (create_link
        (create_node st node_id node_name node_type) link_from node_id
        (linkKindSpec nf.node_type node_type)).1
        node_id link_to (linkKindSpec node_type nt.node_type)).1.links
        link_from link_to =
        ((linksRemove st.links link_from link_to ++
          [{ from_id := link_from, to_id := node_id, visited_last := -ord1,
             order := ord1, link_type := linkKindSpec nf.node_type node_type }]) ++
          [{ from_id := node_id, to_id := link_to, visited_last := -ord2,
             order := ord2, link_type := linkKindSpec node_type nt.node_type }]) := by
      rw [hr2links, hr1links, hlinks1, linksRemove_append, linksRemove_append]
      have hkeep1 : linksRemove
          [{ from_id := link_from, to_id := node_id, visited_last := -ord1,
             order := ord1, link_type := linkKindSpec nf.node_type node_type }]
          link_from link_to =
          [{ from_id := link_from, to_id := node_id, visited_last := -ord1,
             order := ord1, link_type := linkKindSpec nf.node_type node_type }] := by
        simp [linksRemove, Link.sameKey, hne_t]
      have hkeep2 : linksRemove
          [{ from_id := node_id, to_id := link_to, visited_last := -ord2,
             order := ord2, link_type := linkKindSpec node_type nt.node_type }]
          link_from link_to =
          [{ from_id := node_id, to_id := link_to, visited_last := -ord2,
             order := ord2, link_type := linkKindSpec node_type nt.node_type }] := by
        simp [linksRemove, Link.sameKey, hne_f, Ne.symm hne_f]
      rw [hkeep1, hkeep2]
    obtain ⟨hg1, hg2⟩ := getLink_two_new (linksRemove st.links link_from link_to)
      link_from node_id link_to
      { from_id := link_from, to_id := node_id, visited_last := -ord1,
        order := ord1, link_type := linkKindSpec nf.node_type node_type }
      { from_id := node_id, to_id := link_to, visited_last := -ord2,
        order := ord2, link_type := linkKindSpec node_type nt.node_type }
      rfl rfl rfl rfl
      (linkExists_remove_of_not_exists st.links link_from link_to link_from node_id hl1)
      (linkExists_remove_of_not_exists st.links link_from link_to node_id link_to hl2)
      hne_f
    refine ⟨rfl, ?_, ?_, ?_, ?_⟩
    · unfold lookupNode
      dsimp only
      rw [hr2nodes, hr1nodes]
      exact hn_new
    · dsimp only
      rw [hrwlinks, hg1]
    · dsimp only
      rw [hrwlinks, hg2]
    · dsimp only
      rw [hrwlinks, linkExists_append, linkExists_append, linkExists_remove_self]
      simp [linkExists, Link.sameKey, hne_t, hne_f, Ne.symm hne_t, Ne.symm hne_f]

/-- Witness for `insert_node_spec`: inserting plugin node `p` on the
sentinel `inputs → outputs` edge of the initial graph creates the two links
with the §3-derived kinds and keeps the sentinel edge. -/
theorem insert_node_spec_witness :
    (lookupNode ctxW "inputs" =
        some { id := "inputs", name := "Inputs", node_type := NodeType.Context } ∧
      lookupNode ctxW "outputs" =
        some { id := "outputs", name := "Outputs", node_type := NodeType.Context } ∧
      lookupNode ctxW "p" = none ∧
      linkExists ctxW.links "inputs" "p" = false ∧
      linkExists ctxW.links "p" "outputs" = false ∧
      linkExists ctxW.links "inputs" "outputs" = true) ∧
    ((insert_node ctxW "p" "P" NodeType.Normal "inputs" "outputs").2 = true ∧
      lookupNode (insert_node ctxW "p" "P" NodeType.Normal "inputs" "outputs").1 "p" =
        some { id := "p", name := "P", node_type := NodeType.Normal } ∧
      (getLink (insert_node ctxW "p" "P" NodeType.Normal "inputs" "outputs").1.links
          "inputs" "p").map (fun l => l.link_type) =
        some (linkKindSpec NodeType.Context NodeType.Normal) ∧
      (getLink (insert_node ctxW "p" "P" NodeType.Normal "inputs" "outputs").1.links
          "p" "outputs").map (fun l => l.link_type) =
        some (linkKindSpec NodeType.Normal NodeType.Context) ∧
      (if ("inputs" : String) = "inputs" ∧ ("outputs" : String) = "outputs" then
          linkExists (insert_node ctxW "p" "P" NodeType.Normal "inputs" "outputs").1.links
            "inputs" "outputs" = true
        else
          linkExists (insert_node ctxW "p" "P" NodeType.Normal "inputs" "outputs").1.links
            "inputs" "outputs" = false)) := by
  refine ⟨⟨by decide, by decide, by decide, by decide, by decide, by decide⟩, ?_⟩
  exact insert_node_spec ctxW "p" "P" NodeType.Normal "inputs" "outputs"
    { id := "inputs", name := "Inputs", node_type := NodeType.Context }
    { id := "outputs", name := "Outputs", node_type := NodeType.Context }
    (by decide) (by decide) (by decide) (by decide) (by decide) (by decide)

/-! ## Controller event interpreter, navigating state
(`Controller::process_event_navigating_state`) -/

/-- The `Controller` fields driven by `process_event_navigating_state`:
the state machine state, the learned configuration, the two gesture
accumulators, the remembered selected element, and the UI it mutates.
The engine/driver/feature handles perform I/O and are outside this model. -/
structure Controller where
  state : ControllerState
  base_control_config : Option BaseControlConfig
  main_knob_accumulator : Int
  secondary_knob_accumulator : Int
  current_element : Option Element
  ui : UIState
deriving DecidableEq

/-- `Controller::process_event_navigating_state` from
`src/controller/mod.rs`: match the control-change event against the four
learned assignments in order (main knob, secondary knob, selection button,
back button).  Knob matches feed the gesture accumulator and may navigate;
a selection press with a link focused builds the link context menu (an
"add input" option iff the source is `inputs`, "add output" iff the
destination is `outputs`, "add plugin" unless the source is `inputs`, and
always "file"), opens it and moves to `BrowsingMenu`; with anything else
focused it opens the minimal node menu; a back press closes the top menu,
ignoring the error when none is open. -/
def process_event_navigating_state (c : Controller) (event : MidiEvent) :
    Controller :=
  match event with
  | MidiEvent.ControlChange channel control value =>
    match c.base_control_config with
    | none => c
    | some config =>
      if config.main_knob.channel = channel ∧ config.main_knob.control = control then
        match process_knob_value value c.main_knob_accumulator DELTA_THRESHOLD with
        | (some direction, acc) =>
          { c with main_knob_accumulator := acc,
                   ui := navigate c.ui NavigationLevel.Main direction }
        | (none, acc) => { c with main_knob_accumulator := acc }
      else if config.secondary_knob.channel = channel ∧
          config.secondary_knob.control = control then
        match process_knob_value value c.secondary_knob_accumulator DELTA_THRESHOLD with
        | (some direction, acc) =>
          { c with secondary_knob_accumulator := acc,
                   ui := navigate c.ui NavigationLevel.Secondary direction }
        | (none, acc) => { c with secondary_knob_accumulator := acc }
      else if config.selection_button.channel = channel ∧
          config.selection_button.control = control ∧ 0 < value then
        match select c.ui with
        | none => c
        | some element =>
          let c1 := { c with current_element := some element }
          match element with
          | Element.Link from_id to_id _ =>
            let options : List MenuOption :=
              (if from_id = "inputs" then
                [{ id := "add_input", name := "Add Input..." }] else []) ++
              (if to_id = "outputs" then
                [{ id := "add_output", name := "Add Output..." }] else []) ++
              (if from_id ≠ "inputs" then
                [{ id := "add_plugin", name := "Add Plugin..." }] else []) ++
              [{ id := "file", name := "File..." }]
            if options ≠ [] then
              let menu : Menu :=
                { id := "link_" ++ from_id ++ "_" ++ to_id,
                  name := from_id ++ " → " ++ to_id,
                  options := options }
              { c1 with ui := open_menu c1.ui menu,
                        state := ControllerState.BrowsingMenu }
            else c1
          | _ =>
            let menu : Menu :=
              { id := "node_menu", name := "Node",
                options := [{ id := "file", name := "File..." }] }
            { c1 with ui := open_menu c1.ui menu,
                      state := ControllerState.BrowsingMenu }
      else if config.back_button.channel = channel ∧
          config.back_button.control = control ∧ 0 < value then
        { c with ui := (close_menu c.ui).1 }
      else c
  | _ => c

/-- C6: in the navigating state, a selection-button press (value > 0) while
a link is focused opens a menu whose options contain "add_input" iff the
link's source is the `inputs` anchor, "add_output" iff its destination is
the `outputs` anchor, "add_plugin" iff the source is not `inputs`, and
always "file"; the controller transitions to `BrowsingMenu`. -/
theorem selection_opens_link_menu (c : Controller) (cfg : BaseControlConfig)
    (channel control value : Nat) (f t : String) (k : LinkType)
    (hcfg : c.base_control_config = some cfg)
    (hmain : ¬ (cfg.main_knob.channel = channel ∧ cfg.main_knob.control = control))
    (hsec : ¬ (cfg.secondary_knob.channel = channel ∧
      cfg.secondary_knob.control = control))
    (hselbtn : cfg.selection_button.channel = channel ∧
      cfg.selection_button.control = control ∧ 0 < value)
    (hmenu : c.ui.menu_stack = [])
    (hfoc : c.ui.focused_element = some (Element.Link f t k)) :
    (process_event_navigating_state c
      (MidiEvent.ControlChange channel control value)).state =
        ControllerState.BrowsingMenu ∧
    ∃ menu,
      (process_event_navigating_state c
        (MidiEvent.ControlChange channel control value)).ui.menu_stack = [menu] ∧
      ((∃ o ∈ menu.options, o.id = "add_input") ↔ f = "inputs") ∧
      ((∃ o ∈ menu.options, o.id = "add_output") ↔ t = "outputs") ∧
      ((∃ o ∈ menu.options, o.id = "add_plugin") ↔ f ≠ "inputs") ∧
      (∃ o ∈ menu.options, o.id = "file") := by
  have hselect : select c.ui = some (Element.Link f t k) := by
    unfold select
    rw [hmenu]
    exact hfoc
  unfold process_event_navigating_state
  rw [hcfg]
  dsimp only
  rw [if_neg hmain, if_neg hsec, if_pos hselbtn, hselect]
  dsimp only
  rw [if_pos (by simp)]
  constructor
  · rfl
  refine ⟨{ id := "link_" ++ f ++ "_" ++ t,
            name := f ++ " → " ++ t,
            options :=
              (((if f = "inputs" then [{ id := "add_input", name := "Add Input..." }] else []) ++
                (if t = "outputs" then [{ id := "add_output", name := "Add Output..." }] else [])) ++
                (if f ≠ "inputs" then [{ id := "add_plugin", name := "Add Plugin..." }] else [])) ++
                [{ id := "file", name := "File..." }] },
    ?_, ?_, ?_, ?_, ?_⟩
  · unfold open_menu
    dsimp only
    rw [hmenu]
    rfl
  · by_cases hfi : f = "inputs" <;> by_cases hto : t = "outputs" <;>
      simp [hfi, hto]
  · by_cases hfi : f = "inputs" <;> by_cases hto : t = "outputs" <;>
      simp [hfi, hto]
  · by_cases hfi : f = "inputs" <;> by_cases hto : t = "outputs" <;>
      simp [hfi, hto]
  · by_cases hfi : f = "inputs" <;> by_cases hto : t = "outputs" <;>
      simp [hfi, hto]

/-- A calibrated configuration (channel 0, cc 7 main knob, cc 10 secondary,
cc 20 select, cc 21 back) as in the spec's calibration scenario. -/
def cfgW : BaseControlConfig :=
  { main_knob := { channel := 0, control := 7, control_type := ControlType.Knob },
    secondary_knob := { channel := 0, control := 10, control_type := ControlType.Knob },
    selection_button := { channel := 0, control := 20, control_type := ControlType.Button },
    back_button := { channel := 0, control := 21, control_type := ControlType.Button } }

/-- A controller in the navigating state with the sentinel
`inputs → outputs` link focused. -/
def c6W : Controller :=
  { state := ControllerState.Navigating, base_control_config := some cfgW,
    main_knob_accumulator := 0, secondary_knob_accumulator := 0,
    current_element := none, ui := ctxW }

/-- Witness for `selection_opens_link_menu`: on the sentinel
`inputs → outputs` edge, a selection press yields the menu
{Add Input..., Add Output..., File...} without Add Plugin..., and moves to
`BrowsingMenu`. -/
theorem selection_opens_link_menu_witness :
    (c6W.base_control_config = some cfgW ∧
      ¬ (cfgW.main_knob.channel = 0 ∧ cfgW.main_knob.control = 20) ∧
      ¬ (cfgW.secondary_knob.channel = 0 ∧ cfgW.secondary_knob.control = 20) ∧
      (cfgW.selection_button.channel = 0 ∧ cfgW.selection_button.control = 20 ∧
        (0 : Nat) < 127) ∧
      c6W.ui.menu_stack = [] ∧
      c6W.ui.focused_element =
        some (Element.Link "inputs" "outputs" LinkType.Virtual)) ∧
    ((process_event_navigating_state c6W
        (MidiEvent.ControlChange 0 20 127)).state = ControllerState.BrowsingMenu ∧
      ∃ menu,
        (process_event_navigating_state c6W
          (MidiEvent.ControlChange 0 20 127)).ui.menu_stack = [menu] ∧
        ((∃ o ∈ menu.options, o.id = "add_input") ↔ ("inputs" : String) = "inputs") ∧
        ((∃ o ∈ menu.options, o.id = "add_output") ↔ ("outputs" : String) = "outputs") ∧
        ((∃ o ∈ menu.options, o.id = "add_plugin") ↔ ("inputs" : String) ≠ "inputs") ∧
        (∃ o ∈ menu.options, o.id = "file")) :=
  ⟨⟨rfl, by decide, by decide, by decide, rfl, rfl⟩,
    selection_opens_link_menu c6W cfgW 0 20 127 "inputs" "outputs" LinkType.Virtual
      rfl (by decide) (by decide) (by decide) rfl rfl⟩

/-! ## Protocol codec sequence numbers (`src/engine/protocol.rs`) -/

/-- One RDF statement of an outgoing message: subject, predicate, object. -/
structure Statement where
  subj : String
  pred : String
  obj : String
deriving DecidableEq

/-- `2 ^ 32`, the modulus of the `AtomicU32` sequence counter. -/
def U32_MOD : Nat := 4294967296

/-- `SEQUENCE_NUMBER.fetch_add(1, Ordering::SeqCst)` on the global
`AtomicU32`: returns the previous value and stores the wrapped increment. -/
def fetch_add_seq (counter : Nat) : Nat × Nat :=
  (counter, (counter + 1) % U32_MOD)

/-- `IngenProtocol::serialize_graph` from `src/engine/protocol.rs`: draw the
next sequence number from the global counter and attach it to the provided
root node as the last statement (`patch:sequenceNumber`, an `xsd:int`
literal) before serializing.  The process-global counter is threaded
explicitly. -/
def serialize_graph (graph : List Statement) (root_node : String)
    (counter : Nat) : List Statement × Nat :=
  let seq_num := (fetch_add_seq counter).1
  (graph ++ [{ subj := root_node, pred := "patch:sequenceNumber",
               obj := toString seq_num }],
   (fetch_add_seq counter).2)

/-- The counter value after `n` message builds, starting from the
process-start value `0`. -/
def counterAfter : Nat → Nat
  | 0 => 0
  | n + 1 => (serialize_graph [] "request" (counterAfter n)).2

/-- The sequence number carried by the `n`-th message build (0-based): the
counter value before that build. -/
def seqOfBuild (n : Nat) : Nat := counterAfter n

theorem counterAfter_eq (n : Nat) : counterAfter n = n % U32_MOD := by
  induction n with
  | zero => rfl
  | succ n ih =>
    show (serialize_graph [] "request" (counterAfter n)).2 = (n + 1) % U32_MOD
    simp only [serialize_graph, fetch_add_seq]
    rw [ih]
    unfold U32_MOD
    omega

/-- Counterexample to C7 as stated: the `u32` sequence counter wraps
modulo `2^32`, so build number `2^32` carries the same sequence number as
build `0` — over an unbounded sequence of builds within one connection's
lifetime, sequence numbers do repeat (and go backward). -/
theorem sequence_number_wraps :
    seqOfBuild 4294967296 = seqOfBuild 0 ∧ seqOfBuild 0 = 0 := by
  constructor
  · rw [seqOfBuild, seqOfBuild, counterAfter_eq, counterAfter_eq]
    norm_num [U32_MOD]
  · rfl

/-- C7 (amended): every outgoing message built by the codec carries the
integer sequence number attached to the request node as the last statement
before serialization, drawn from a single process-wide counter; across any
sequence of message builds the numbers never repeat and never go backward
as long as fewer than `2^32` messages have been built — the `u32` counter
wraps after that. -/
theorem sequence_number_monotone_before_wrap :
    (∀ (graph : List Statement) (root : String) (counter : Nat),
      (serialize_graph graph root counter).1.getLast? =
        some { subj := root, pred := "patch:sequenceNumber",
               obj := toString (fetch_add_seq counter).1 }) ∧
    (∀ i j : Nat, i < j → j < U32_MOD → seqOfBuild i < seqOfBuild j) := by
  constructor
  · intro graph root counter
    simp [serialize_graph]
  · intro i j hij hj
    rw [seqOfBuild, seqOfBuild, counterAfter_eq, counterAfter_eq,
      Nat.mod_eq_of_lt (lt_trans hij hj), Nat.mod_eq_of_lt hj]
    exact hij

/-- Witness for `sequence_number_monotone_before_wrap`: the message built at
counter `5` ends with the `patch:sequenceNumber "5"` statement, and build 5
precedes build 7 with a strictly smaller sequence number. -/
theorem sequence_number_monotone_before_wrap_witness :
    ((serialize_graph [] "req" 5).1.getLast? =
      some { subj := "req", pred := "patch:sequenceNumber",
             obj := toString (fetch_add_seq 5).1 }) ∧
    ((5 : Nat) < 7 ∧ 7 < U32_MOD ∧ seqOfBuild 5 < seqOfBuild 7) :=
  ⟨sequence_number_monotone_before_wrap.1 [] "req" 5,
   by decide,
   by norm_num [U32_MOD],
   sequence_number_monotone_before_wrap.2 5 7 (by decide) (by norm_num [U32_MOD])⟩

/-! ## Transport receive / framing loop (`Engine::receive_message`,
`src/engine/mod.rs`) -/

/-- The bytes of an ASCII marker string. -/
def strBytes (s : String) : List Nat := s.toList.map Char.toNat

/-- Whether `pat` is an initial segment of the byte list. -/
def startsWith : List Nat → List Nat → Bool
  | [], _ => true
  | _ :: _, [] => false
  | p :: ps, x :: xs => p = x && startsWith ps xs

/-- `str::find` over byte lists: the index of the first occurrence of
`pat`. -/
def findSub (pat : List Nat) : List Nat → Option Nat
  | [] => if startsWith pat [] then some 0 else none
  | x :: xs =>
    if startsWith pat (x :: xs) then some 0
    else (findSub pat xs).map (fun i => i + 1)

/-- `str::rfind` of a single byte: the index of its last occurrence. -/
def rfindByte (b : Nat) : List Nat → Option Nat
  | [] => none
  | x :: xs =>
    match rfindByte b xs with
    | some i => some (i + 1)
    | none => if x = b then some 0 else none

/-- The marker scan of `Engine::receive_message`: find the marker text,
then `patch:sequenceNumber` after it, skip those 20 characters, and return
what stands between the next two quote characters (byte 34). -/
def scanBundleSeq (mark : List Nat) (buf : List Nat) : Option (List Nat) :=
  match findSub mark buf with
  | none => none
  | some p =>
    let tail1 := buf.drop p
    match findSub (strBytes "patch:sequenceNumber") tail1 with
    | none => none
    | some q =>
      let after := tail1.drop (q + 20)
      match findSub [34] after with
      | none => none
      | some qs =>
        let after2 := after.drop (qs + 1)
        match findSub [34] after2 with
        | none => none
        | some qe => some (after2.take qe)

/-- The whitespace bytes of the `trim` check after the trailing dot. -/
def isWsByte (b : Nat) : Bool := b = 32 || b = 9 || b = 10 || b = 13

/-- A socket read outcome as observed by the loop: a successful chunk of
bytes, a `WouldBlock` timeout, a zero-byte read (EOF), or `EINTR`. -/
inductive ReadEvent
  | chunk (bytes : List Nat)
  | timeout
  | eof
  | interrupted
deriving DecidableEq

/-- The loop state of `Engine::receive_message`: the accumulated
null-stripped buffer and the bundle-marker scanning state. -/
structure RecvState where
  buffer : List Nat
  bundle_start_seq : Option (List Nat)
  bundle_end_seq : Option (List Nat)
  found_bundle_end : Bool
deriving DecidableEq

/-- The outcome of the read loop: a complete message together with the
bytes stashed for the next call, a timeout error (no bytes accumulated), a
closed connection, a hard error during the peek read, or an exhausted
event script. -/
inductive RecvResult
  | message (msg leftover : List Nat)
  | timeoutError
  | connectionClosed
  | readError
  | outOfEvents (st : RecvState)
deriving DecidableEq

/-- The per-chunk buffer and marker-scan update of
`Engine::receive_message`: strip null bytes, append to the buffer, scan for
the `BundleStart` sequence number when not yet seen, then for the
`BundleEnd` sequence number once the start is seen. -/
def processChunk (st : RecvState) (bytes : List Nat) : RecvState :=
  let buffer := st.buffer ++ bytes.filter (fun b => b ≠ 0)
  let bundle_start_seq :=
    if st.bundle_start_seq.isNone then
      scanBundleSeq (strBytes "a ingen:BundleStart") buffer
    else st.bundle_start_seq
  let scan_end :=
    if bundle_start_seq.isSome ∧ st.bundle_end_seq.isNone then
      scanBundleSeq (strBytes "a ingen:BundleEnd") buffer
    else none
  let bundle_end_seq :=
    match scan_end with
    | some s => some s
    | none => st.bundle_end_seq
  let found_bundle_end :=
    match scan_end with
    | some _ => true
    | none => st.found_bundle_end
  { buffer := buffer, bundle_start_seq := bundle_start_seq,
    bundle_end_seq := bundle_end_seq, found_bundle_end := found_bundle_end }

/-- The response-boundary check: the position of the last `.` when
everything after it is whitespace; `none` otherwise (keep reading). -/
def dotBoundary (buffer : List Nat) : Option Nat :=
  match rfindByte 46 buffer with
  | some dot_pos =>
    if (buffer.drop (dot_pos + 1)).all isWsByte then some dot_pos else none
  | none => none

/-- The inner read loop of `Engine::receive_message`: process each chunk
with `processChunk`; once the bundle end is seen and the last `.` is the
final non-whitespace byte, peek one byte with a short timeout — nothing
more (EOF or timeout) ⇒ the message is complete and split at the dot with
the remainder stashed for the next call, one more byte ⇒ fold it in and
keep reading, `EINTR` ⇒ hard error.  A timeout with an empty buffer is a
timeout error; with bytes accumulated it ends the message.  EOF with an
empty buffer is a closed connection; with bytes accumulated it ends the
message.  `EINTR` on the main read retries. -/
def receiveLoop (st : RecvState) : List ReadEvent → RecvResult
  | [] => RecvResult.outOfEvents st
  | ReadEvent.interrupted :: rest => receiveLoop st rest
  | ReadEvent.eof :: _ =>
    if st.buffer = [] then RecvResult.connectionClosed
    else RecvResult.message st.buffer []
  | ReadEvent.timeout :: _ =>
    if st.buffer = [] then RecvResult.timeoutError
    else RecvResult.message st.buffer []
  | ReadEvent.chunk bytes :: rest =>
    let st1 := processChunk st bytes
    if st1.found_bundle_end then
      match dotBoundary st1.buffer with
      | some dot_pos =>
        match rest with
        | [] => RecvResult.outOfEvents st1
        | ReadEvent.eof :: _ =>
          RecvResult.message (st1.buffer.take (dot_pos + 1))
            (st1.buffer.drop (dot_pos + 1))
        | ReadEvent.timeout :: _ =>
          RecvResult.message (st1.buffer.take (dot_pos + 1))
            (st1.buffer.drop (dot_pos + 1))
        | ReadEvent.chunk peeked :: rest2 =>
          let b := peeked.headD 0
          receiveLoop
            { st1 with
                buffer := if b ≠ 0 then st1.buffer ++ [b] else st1.buffer } rest2
        | ReadEvent.interrupted :: _ => RecvResult.readError
      | none => receiveLoop st1 rest
    else receiveLoop st1 rest

theorem processChunk_buffer (st : RecvState) (bytes : List Nat) :
    (processChunk st bytes).buffer = st.buffer ++ bytes.filter (fun b => b ≠ 0) :=
  rfl

theorem receiveLoop_nil (st : RecvState) :
    receiveLoop st [] = RecvResult.outOfEvents st := rfl

theorem receiveLoop_interrupted_eq (st : RecvState) (rest : List ReadEvent) :
    receiveLoop st (ReadEvent.interrupted :: rest) = receiveLoop st rest := rfl

theorem receiveLoop_eof_eq (st : RecvState) (rest : List ReadEvent) :
    receiveLoop st (ReadEvent.eof :: rest) =
      if st.buffer = [] then RecvResult.connectionClosed
      else RecvResult.message st.buffer [] := rfl

theorem receiveLoop_timeout_eq (st : RecvState) (rest : List ReadEvent) :
    receiveLoop st (ReadEvent.timeout :: rest) =
      if st.buffer = [] then RecvResult.timeoutError
      else RecvResult.message st.buffer [] := rfl

theorem receiveLoop_no_timeout_aux :
    ∀ n : Nat, ∀ events : List ReadEvent, events.length ≤ n →
      ∀ st : RecvState, st.buffer ≠ [] →
      receiveLoop st events ≠ RecvResult.timeoutError := by
  intro n
  induction n with
  | zero =>
    intro events hlen st h
    have hnil : events = [] := List.length_eq_zero.mp (Nat.le_zero.mp hlen)
    subst hnil
    rw [receiveLoop_nil]
    exact fun hc => RecvResult.noConfusion hc
  | succ n ih =>
    intro events hlen st h
    cases events with
    | nil =>
      rw [receiveLoop_nil]
      exact fun hc => RecvResult.noConfusion hc
    | cons ev rest =>
      have hrest : rest.length ≤ n := by
        simp only [List.length_cons] at hlen
        omega
      cases ev with
      | interrupted =>
        rw [receiveLoop_interrupted_eq]
        exact ih rest hrest st h
      | eof =>
        rw [receiveLoop_eof_eq, if_neg h]
        exact fun hc => RecvResult.noConfusion hc
      | timeout =>
        rw [receiveLoop_timeout_eq, if_neg h]
        exact fun hc => RecvResult.noConfusion hc
      | chunk bytes =>
        have hne : (processChunk st bytes).buffer ≠ [] := by
          rw [processChunk_buffer]
          simp [h]
        simp only [receiveLoop]
        split
        · split
          · cases rest with
            | nil => exact fun hc => RecvResult.noConfusion hc
            | cons ev2 rest2 =>
              have hrest2 : rest2.length ≤ n := by
                simp only [List.length_cons] at hrest
                omega
              cases ev2 with
              | eof => exact fun hc => RecvResult.noConfusion hc
              | timeout => exact fun hc => RecvResult.noConfusion hc
              | interrupted => exact fun hc => RecvResult.noConfusion hc
              | chunk peeked =>
                exact ih rest2 hrest2 _ (by
                  dsimp only
                  split
                  · simp
                  · exact hne)
          · exact ih rest hrest _ hne
        · exact ih rest hrest _ hne

/-- C8: when a per-chunk read timeout fires during message receive, the
operation fails with a timeout error if and only if zero bytes have been
accumulated in the buffer so far; if bytes were already accumulated the
timeout is treated as end-of-message and the accumulated bytes are
returned; moreover, once any bytes have been accumulated, no continuation
of the loop can end in a timeout error. -/
theorem receive_timeout_spec :
    (∀ (st : RecvState) (rest : List ReadEvent),
      (receiveLoop st (ReadEvent.timeout :: rest) = RecvResult.timeoutError ↔
        st.buffer = []) ∧
      (st.buffer ≠ [] →
        receiveLoop st (ReadEvent.timeout :: rest) =
          RecvResult.message st.buffer [])) ∧
    (∀ (events : List ReadEvent) (st : RecvState), st.buffer ≠ [] →
      receiveLoop st events ≠ RecvResult.timeoutError) := by
  constructor
  · intro st rest
    rw [receiveLoop_timeout_eq]
    constructor
    · constructor
      · intro hres
        by_contra hbuf
        rw [if_neg hbuf] at hres
        exact RecvResult.noConfusion hres
      · intro hbuf
        rw [if_pos hbuf]
    · intro hbuf
      rw [if_neg hbuf]
  · intro events st h
    exact receiveLoop_no_timeout_aux events.length events (le_refl _) st h

/-- A fresh receive-loop state with the given initial buffer. -/
def recvSt (buf : List Nat) : RecvState :=
  { buffer := buf, bundle_start_seq := none, bundle_end_seq := none,
    found_bundle_end := false }

/-- Witness for `receive_timeout_spec`: with the single byte `97`
accumulated, a timeout ends the message and returns the accumulated byte;
with an empty buffer it is a timeout error; and once a byte is buffered, a
further chunk followed by a timeout still cannot produce a timeout error. -/
theorem receive_timeout_spec_witness :
    (receiveLoop (recvSt []) [ReadEvent.timeout] = RecvResult.timeoutError ↔
      (recvSt []).buffer = []) ∧
    ((recvSt [97]).buffer ≠ [] ∧
      receiveLoop (recvSt [97]) [ReadEvent.timeout] =
        RecvResult.message (recvSt [97]).buffer []) ∧
    ((recvSt [97]).buffer ≠ [] ∧
      receiveLoop (recvSt [97]) [ReadEvent.chunk [98], ReadEvent.timeout] ≠
        RecvResult.timeoutError) :=
  ⟨(receive_timeout_spec.1 (recvSt []) []).1,
   ⟨by decide, (receive_timeout_spec.1 (recvSt [97]) []).2 (by decide)⟩,
   ⟨by decide, receive_timeout_spec.2 [ReadEvent.chunk [98], ReadEvent.timeout]
      (recvSt [97]) (by decide)⟩⟩

end Traxdub
